import Mathlib

/-!
Verification development for the Calunga CLI's issue-detection and
batch-remediation engine (`src/calunga/commands/find_issues.py` and
`src/calunga/commands/fix_issues.py`).

The Python code is shallowly embedded: pure string manipulation is modelled
at the `List Char` level (Python `str` methods are reimplemented faithfully;
Lean's built-in `String` order is avoided because Python string comparison is
specified as code-point lexicographic), and every external effect
(HTTP request, subprocess call, polling) is abstracted as an explicit input:
the status code and link list a request produced, an `Except` value standing
for "the subprocess returned stdout" vs "the subprocess raised
`CalledProcessError`", or a trace of poll responses.  Fallible Python code
(functions that may raise) is embedded with `Except`.
-/

deriving instance DecidableEq for Except

namespace Calunga

/-! ## Python string primitives, modelled at the character level -/

/-- Python's `\s` character class restricted to ASCII (space, tab, newline,
carriage return, vertical tab, form feed), which is what the manifests and
subprocess outputs here contain. -/
def pyIsSpace (c : Char) : Bool :=
  c = ' ' || c = '\t' || c = '\n' || c = '\r' || c = '\x0b' || c = '\x0c'

/-- Python `str.strip()` on a character list: drop whitespace from both ends. -/
def pyStrip (cs : List Char) : List Char :=
  ((cs.dropWhile pyIsSpace).reverse.dropWhile pyIsSpace).reverse

/-- Python string `<`: lexicographic comparison by code point. -/
def strLtChars : List Char → List Char → Bool
  | [], [] => false
  | [], _ :: _ => true
  | _ :: _, [] => false
  | a :: as, b :: bs =>
    if a.toNat < b.toNat then true
    else if a.toNat = b.toNat then strLtChars as bs
    else false

/-- Python string `<=` (used by `list.sort()` on strings). -/
def pyLe (a b : String) : Bool := !(strLtChars b.data a.data)

/-- `pyLe` as a relation, for `List.insertionSort` (a structural sorting
routine producing the same sorted permutation as Python's `list.sort()`). -/
def pyLeRel (a b : String) : Prop := pyLe a b = true

instance : DecidableRel pyLeRel := fun a b => inferInstanceAs (Decidable (pyLe a b = true))

/-- Python `str.split("\n")` (also the positions at which a `re.MULTILINE`
`^` anchor can match: the start of the string and each position after a
newline). -/
def splitNL : List Char → List (List Char)
  | [] => [[]]
  | '\n' :: rest =>
    [] :: splitNL rest
  | c :: rest =>
    match splitNL rest with
    | [] => [[c]]
    | p :: ps => (c :: p) :: ps

/-- Python `str.splitlines()`, for content whose line boundaries are `\n`
(the only boundary produced by the files this program writes and reads). -/
def splitlinesNL : List Char → List (List Char)
  | [] => []
  | '\n' :: rest => [] :: splitlinesNL rest
  | c :: rest =>
    match splitlinesNL rest with
    | [] => [[c]]
    | p :: ps => (c :: p) :: ps

/-- Python `"\n".join(lines)` on character lists. -/
def joinNL : List (List Char) → List Char
  | [] => []
  | [l] => l
  | l :: ls => l ++ '\n' :: joinNL ls

namespace FindIssues

/-! ## `find_issues.py` -/

/-- The body of `package_version`'s regex
`^<escaped-name>==([^\\\s]+)` applied at one line start, with
`re.IGNORECASE`: consume `pat` case-insensitively (Python `IGNORECASE` on
ASCII is case folding via `toLower`) and return the rest of the line. -/
def ciConsume : List Char → List Char → Option (List Char)
  | [], rest => some rest
  | _ :: _, [] => none
  | p :: ps, c :: cs =>
    if p.toLower = c.toLower then ciConsume ps cs else none

/-- A character the capture group `[^\\\s]+` accepts: not a backslash and
not whitespace. -/
def verChar (c : Char) : Bool := !(c = '\\' || pyIsSpace c)

/-- Try `package_version`'s regex at the start of one line: the package name
followed by `==`, then a non-empty run of `[^\\\s]` characters (the captured
version). -/
def lineVersion (pkgName : List Char) (line : List Char) : Option (List Char) :=
  match ciConsume (pkgName ++ ['=', '=']) line with
  | none => none
  | some rest =>
    let ver := rest.takeWhile verChar
    if ver.isEmpty then none else some ver

/-- `re.sub(r'\\+$', '', version)`: remove a trailing run of backslashes. -/
def dropTrailingBackslashes (cs : List Char) : List Char :=
  (cs.reverse.dropWhile (· = '\\')).reverse

/-- `package_version(pkg_dir)` from `find_issues.py`.  The file system is
abstracted: `manifest` is `none` when `requirements.txt` does not exist,
otherwise the file's content.  `re.search` with `re.MULTILINE` finds the
first line (in order) whose start matches; the match's captured group is
then stripped, has trailing backslashes removed, and is stripped again. -/
def package_version (pkgName : String) (manifest : Option String) : Option String :=
  match manifest with
  | none => none
  | some content =>
    match (splitNL content.data).findSome? (lineVersion pkgName.data) with
    | none => none
    | some ver =>
      some (String.mk (pyStrip (dropTrailingBackslashes (pyStrip ver))))

/-- Python `str.replace(".tar.gz", "")`: remove every occurrence of
`.tar.gz`, scanning left to right. -/
def removeTarGz : List Char → List Char
  | '.' :: 't' :: 'a' :: 'r' :: '.' :: 'g' :: 'z' :: rest => removeTarGz rest
  | c :: rest => c :: removeTarGz rest
  | [] => []

/-- Python `str.split("-")`. -/
def splitDash : List Char → List (List Char)
  | [] => [[]]
  | '-' :: rest => [] :: splitDash rest
  | c :: rest =>
    match splitDash rest with
    | [] => [[c]]
    | p :: ps => (c :: p) :: ps

/-- The per-link version extraction of `index_version`: strip the
`.tar.gz` occurrences from the link text, split by `-`, and if there is
more than one part take the last one; links with no dash contribute
nothing. -/
def tarGzVersion (link : String) : Option String :=
  let filename := removeTarGz link.data
  let parts := splitDash filename
  if parts.length > 1 then some (String.mk (parts.getLastD [])) else none

/-- Modelled from the spec: the per-link version extraction as the spec
describes it — "stripping the .tar.gz suffix and taking the substring
after the last hyphen of each listed archive link" — used only to compare
the specified parsing against the implemented one. -/
def specTarGzVersion (link : String) : Option String :=
  let filename := link.data.take (link.data.length - ".tar.gz".data.length)
  let parts := splitDash filename
  if parts.length > 1 then some (String.mk (parts.getLastD [])) else none

/-- `index_version(pkg_name)` from `find_issues.py`.  The HTTP request is
abstracted: `statusCode` is the response status and `links` the list of
`<a>…</a>` texts ending in `.tar.gz` that the `re.findall` extracted from
the response body.  A 404 maps to the sentinel `"MISSING"`; any other
non-200 status maps to `none`; otherwise the lexicographically greatest
extracted version is returned (`versions.sort()` then `versions[-1]`). -/
def index_version (statusCode : Nat) (links : List String) : Option String :=
  if statusCode = 404 then some "MISSING"
  else if statusCode ≠ 200 then none
  else if links.isEmpty then none
  else
    let versions := links.filterMap tarGzVersion
    if versions.isEmpty then none
    else some ((List.insertionSort pyLeRel versions).getLastD "")

/-- The fields `latest_built_commit_id` reads out of the component YAML:
`data.get("status", {}).get("lastBuiltCommit")`. -/
structure ComponentYaml where
  status : Option (Option String)
deriving DecidableEq, Repr

/-- `latest_built_commit_id(pkg_name)` from `find_issues.py`.  The
`oc get component` subprocess is abstracted as an `Except`: `.error`
stands for a raised `subprocess.CalledProcessError` (the call uses
`check=True` and has no exception handler, so the error propagates),
`.ok` carries the parsed YAML document. -/
def latest_built_commit_id (oc : Except String ComponentYaml) :
    Except String (Option String) :=
  match oc with
  | .error e => .error e
  | .ok data => .ok ((data.status.getD none))

/-- `latest_commit_id(pkg_dir)` from `find_issues.py`.  The `git log`
subprocess is abstracted the same way; on success the stdout is stripped. -/
def latest_commit_id (git : Except String String) : Except String String :=
  match git with
  | .error e => .error e
  | .ok stdout => .ok (String.mk (pyStrip stdout.data))

/-- `find_snapshot_for_commit_id(pkg_name, commit_id)` from
`find_issues.py`: the `oc get snapshot` stdout is stripped; an empty result
yields `None`. -/
def find_snapshot_for_commit_id (stdout : String) : Option String :=
  let stripped := String.mk (pyStrip stdout.data)
  if stripped = "" then none else some stripped

/-- The record `analyze_package` returns for one package. -/
structure IssueRecord where
  package_name : String
  git_version : Option String
  index_version : Option String
  built_commit_id : Option String
  current_commit_id : Option String
  issue_type : String
  issue_description : String
  action_needed : String
deriving DecidableEq, Repr

/-- Python `f"{x}"` on an `Optional[str]`. -/
def pyShowOpt : Option String → String
  | none => "None"
  | some s => s

/-- Python truthiness of an `Optional[str]` (`if snapshot_name:`). -/
def optTruthy : Option String → Bool
  | none => false
  | some s => !(s = "")

/-- `analyze_package(pkg_dir)` from `find_issues.py`: the classifier.  All
external lookups are abstracted as the values they returned:
`git_version` from `package_version`, `index_version_val` from
`index_version`, `built_commit_id` from `latest_built_commit_id`,
`commit_id` from `latest_commit_id`, and `snapshot_name` from
`find_snapshot_for_commit_id` (the code only performs that lookup in the
versions-differ / commits-equal branch; the value is the same either way). -/
def analyze_package (pkg_name : String) (git_version index_version_val : Option String)
    (built_commit_id commit_id : Option String) (snapshot_name : Option String) :
    IssueRecord :=
  let base : IssueRecord :=
    { package_name := pkg_name
      git_version := git_version
      index_version := index_version_val
      built_commit_id := built_commit_id
      current_commit_id := commit_id
      issue_type := ""
      issue_description := ""
      action_needed := "" }
  if git_version ≠ index_version_val then
    if built_commit_id ≠ commit_id then
      { base with
          issue_type := "needs_rebuild"
          issue_description := "Commit mismatch: built commit is " ++ pyShowOpt built_commit_id
            ++ ", current commit is " ++ pyShowOpt commit_id
          action_needed := "rebuild" }
    else
      if optTruthy snapshot_name then
        { base with
            issue_type := "needs_release"
            issue_description := "Build exists but not released. Snapshot: "
              ++ pyShowOpt snapshot_name
            action_needed := "release" }
      else
        { base with
            issue_type := "unknown"
            issue_description := "Version mismatch but no clear action identified"
            action_needed := "investigate" }
  else
    { base with
        issue_type := "no_issue"
        issue_description := "Versions match"
        action_needed := "none" }

/-- The aggregated report `find_issues` builds from the collected
per-package results. -/
structure Report where
  total_packages : Nat
  packages_with_issues : Nat
  issues : List IssueRecord
  all_packages : List IssueRecord
deriving DecidableEq, Repr

/-- The sort key order of `results.sort(key=lambda x: x.get("package_name", ""))`. -/
def recordLe (a b : IssueRecord) : Prop := pyLeRel a.package_name b.package_name

instance : DecidableRel recordLe :=
  fun a b => inferInstanceAs (Decidable (pyLe a.package_name b.package_name = true))

/-- The aggregation step of `find_issues`: sort the collected results by
package name (`results.sort(key=...)`), filter the issues
(`issue_type != "no_issue"`), and compute the summary counts. -/
def aggregateReport (results : List IssueRecord) : Report :=
  let sortedResults := List.insertionSort recordLe results
  let issues := sortedResults.filter (fun r => !(r.issue_type = "no_issue"))
  { total_packages := sortedResults.length
    packages_with_issues := issues.length
    issues := issues
    all_packages := sortedResults }

/-- The result-collection loop of `find_issues`: `future.result()` is called
for each package with no exception handler, so the first classification
failure propagates and aborts the collection.  `classify` abstracts
`analyze_package` run for one package (which may raise). -/
def collectResults (classify : String → Except String IssueRecord) :
    List String → Except String (List IssueRecord)
  | [] => .ok []
  | p :: rest =>
    match classify p with
    | .error e => .error e
    | .ok r =>
      match collectResults classify rest with
      | .error e => .error e
      | .ok rs => .ok (r :: rs)

/-- The scan performed by the `find_issues` command over the package list:
collect every package's classification (propagating any raised exception),
then aggregate into a `Report`. -/
def find_issues_scan (classify : String → Except String IssueRecord)
    (packages : List String) : Except String Report :=
  match collectResults classify packages with
  | .error e => .error e
  | .ok results => .ok (aggregateReport results)

end FindIssues

namespace FixIssues

/-! ## `fix_issues.py` -/

/-- The marker text `mark_package_for_rebuild` filters on
(`line.startswith("# Add comment to force rebuild")`). -/
def rebuildMarker : List Char := "# Add comment to force rebuild".data

/-- The new marker line appended by `mark_package_for_rebuild`:
`f"# Add comment to force rebuild, {timestamp}"`. -/
def markerLine (timestamp : String) : List Char :=
  rebuildMarker ++ (", ".data ++ timestamp.data)

/-- The line transformation of `mark_package_for_rebuild`: keep every line
that does not start with the marker text, then append the fresh marker
line. -/
def markRebuildLines (timestamp : String) (lines : List (List Char)) : List (List Char) :=
  (lines.filter (fun line => !(rebuildMarker.isPrefixOf line))) ++ [markerLine timestamp]

/-- `mark_package_for_rebuild(package_name)` from `fix_issues.py`, as a
function from the prior content of `packages/<name>/argfile.conf` to the
content written back: read, `splitlines()`, drop prior marker lines, append
the timestamped marker, and write `"\n".join(lines) + "\n"`.  The clock is
abstracted as the `timestamp` argument. -/
def mark_package_for_rebuild (timestamp : String) (content : String) : String :=
  String.mk (joinNL (markRebuildLines timestamp (splitlinesNL content.data)) ++ ['\n'])

/-- One check run as read from the `gh api …/check-runs` response
(`check.get("status", "unknown")`, `check.get("conclusion", "unknown")`). -/
structure CheckRun where
  name : String
  status : String
  conclusion : String
deriving DecidableEq, Repr

/-- A check still running: `status == "queued" or status == "in_progress"`. -/
def checkPending (c : CheckRun) : Bool :=
  c.status = "queued" || c.status = "in_progress"

/-- A check that failed: `conclusion == "failure" or conclusion == "cancelled"`
(only consulted for checks that are not pending, per the `elif` chain). -/
def checkBad (c : CheckRun) : Bool :=
  c.conclusion = "failure" || c.conclusion = "cancelled"

/-- The per-poll loop over `check_runs` in `wait_for_commit_checks`,
computing `(all_completed, all_successful)`: a pending check clears
`all_completed`; otherwise a `failure`/`cancelled` conclusion clears
`all_successful`; any other conclusion (`success` or unexpected) leaves
both untouched. -/
def scanChecks (runs : List CheckRun) : Bool × Bool :=
  runs.foldl
    (fun acc c =>
      if checkPending c then (false, acc.2)
      else if checkBad c then (acc.1, false)
      else acc)
    (true, true)

/-- The first phase of `wait_for_commit_checks`: poll (30 s apart, while
`time.time() - start_time < max_wait_minutes * 60`) until some check run is
attached to the commit.  `trace i` is the check-run list the `i`-th
`gh api` call returns; `fuel` is the number of polls the wall-clock timeout
admits (10 for the 5-minute default).  Returns the index of the first
non-empty poll, or `none` on timeout. -/
def appearPolls (trace : Nat → List CheckRun) : Nat → Nat → Option Nat
  | _, 0 => none
  | i, fuel + 1 =>
    if (trace i).isEmpty then appearPolls trace (i + 1) fuel else some i

/-- The second phase of `wait_for_commit_checks`: poll forever (`while True`)
until every check has completed, then report whether none failed.  The
unbounded loop is observed through `fuel` further polls: `none` means the
loop was still running after `fuel` polls. -/
def completePolls (trace : Nat → List CheckRun) : Nat → Nat → Option Bool
  | _, 0 => none
  | i, fuel + 1 =>
    let runs := trace i
    if runs.isEmpty then completePolls trace (i + 1) fuel
    else
      let scanned := scanChecks runs
      if scanned.1 then some scanned.2
      else completePolls trace (i + 1) fuel

/-- `wait_for_commit_checks(commit_sha)` from `fix_issues.py` over a trace
of poll responses: if no check appears within the appearance timeout the
function returns `False`; otherwise it re-polls (the completion loop issues
a fresh API call) until all checks have completed and returns whether all
of them were successful (i.e. none concluded `failure`/`cancelled`). -/
def wait_for_commit_checks (trace : Nat → List CheckRun)
    (appearFuel completeFuel : Nat) : Option Bool :=
  match appearPolls trace 0 appearFuel with
  | none => some false
  | some i => completePolls trace (i + 1) completeFuel

/-- One `needs_release` issue as consumed by `process_batch_release`
(`issue["package_name"]`, `issue["built_commit_id"]`). -/
structure ReleaseIssue where
  package_name : String
  built_commit_id : String
deriving DecidableEq, Repr

/-- How a `process_batch_release` invocation ends: an exception propagated
out of the creation loop (`raise`), `typer.Exit(1)` because some release
failed, or normal completion. -/
inductive RelOutcome
  | raised (e : String)
  | exitFail
  | completed
deriving DecidableEq, Repr

/-- Step 1 of `process_batch_release`: for each issue in order, find the
snapshot (`find_snapshot_for_commit_id`, which raises on subprocess failure
or when no snapshot exists) and immediately create a release for it
(`create_release_for_snapshot`).  Both external commands are abstracted as
oracles returning `Except`; the first error re-raises, ending the loop.
Returns the `releases_created` entries `(package_name, release_name,
snapshot_name)` in creation order, paired with the raised error if any. -/
def releaseCreationPhase (snap : String → String → Except String String)
    (create : String → Except String String) :
    List ReleaseIssue → List (String × String × String) × Option String
  | [] => ([], none)
  | issue :: rest =>
    match snap issue.package_name issue.built_commit_id with
    | .error e => ([], some e)
    | .ok snapshotName =>
      match create snapshotName with
      | .error e => ([], some e)
      | .ok releaseName =>
        let tail := releaseCreationPhase snap create rest
        ((issue.package_name, releaseName, snapshotName) :: tail.1, tail.2)

/-- `process_batch_release(release_issues)` from `fix_issues.py`: run the
creation phase; a raised error propagates (skipping the wait phase);
otherwise wait for every created release (`waitRel` abstracts
`wait_for_release_completion`, `false` covering both a failed release and a
caught monitoring exception) and raise `typer.Exit(1)` unless all
succeeded.  Returns the releases created (the external side effects) and
the outcome. -/
def process_batch_release (snap : String → String → Except String String)
    (create : String → Except String String) (waitRel : String → Bool)
    (issues : List ReleaseIssue) : List (String × String × String) × RelOutcome :=
  let created := releaseCreationPhase snap create issues
  match created.2 with
  | some e => (created.1, .raised e)
  | none =>
    if created.1.all (fun r => waitRel r.2.1) then (created.1, .completed)
    else (created.1, .exitFail)

/-- One issue as consumed by the `fix_issues` coordinator. -/
structure FixIssue where
  package_name : String
  issue_type : String
  built_commit_id : String
deriving DecidableEq, Repr

/-- Append one issue to its type's group, creating the group at the end on
first sight (Python dict insertion order). -/
def addToGroup (acc : List (String × List FixIssue)) (issue : FixIssue) :
    List (String × List FixIssue) :=
  match acc with
  | [] => [(issue.issue_type, [issue])]
  | (t, grp) :: rest =>
    if t = issue.issue_type then (t, grp ++ [issue]) :: rest
    else (t, grp) :: addToGroup rest issue

/-- The grouping loop of `fix_issues`: a Python `dict` keyed by
`issue_type`, so groups appear in first-seen order and each group keeps the
issues' order. -/
def groupByType (issues : List FixIssue) : List (String × List FixIssue) :=
  issues.foldl addToGroup []

/-- `range(0, len(l), n)` slicing `l[i:i+n]`: contiguous batches of at most
`n` (meaningful for `n ≥ 1`; `fuel` bounds the recursion by `l.length`). -/
def chunksAux (n : Nat) : Nat → List α → List (List α)
  | _, [] => []
  | 0, _ => []
  | fuel + 1, l => l.take n :: chunksAux n fuel (l.drop n)

/-- The batch partition used by `fix_issues` for both issue types. -/
def chunks (n : Nat) (l : List α) : List (List α) := chunksAux n l.length l

/-- A batch as attempted by the coordinator: a rebuild batch carries the
package names handed to `process_batch_rebuild`, a release batch the
issues handed to `process_batch_release`. -/
inductive BatchEntry
  | rebuild (names : List String)
  | release (issues : List FixIssue)
deriving DecidableEq, Repr

/-- Whether a batch succeeds, given the two workflow oracles: `rebuildOk`
abstracts `process_batch_rebuild` returning normally (`false` covering a
propagated exception or `typer.Exit(1)` on failed checks), `releaseOk`
likewise for `process_batch_release`. -/
def batchPasses (rebuildOk : List String → Bool) (releaseOk : List FixIssue → Bool) :
    BatchEntry → Bool
  | .rebuild names => rebuildOk names
  | .release issues => releaseOk issues

/-- The batch loop for one issue type inside `fix_issues`: batches run in
order; a failing batch raises out of the loop.  Returns the batches
attempted (in order) and whether the loop finished without raising. -/
def runTypeBatches (passes : BatchEntry → Bool) :
    List BatchEntry → List BatchEntry × Bool
  | [] => ([], true)
  | b :: rest =>
    if passes b then
      let tail := runTypeBatches passes rest
      (b :: tail.1, tail.2)
    else ([b], false)

/-- The issue-type loop of `fix_issues`: for `needs_rebuild`, map the group
to package names and batch them; for `needs_release`, batch the issue
records; any other type only prints a warning.  A raised `typer.Exit`
propagates out of the whole command, so nothing after the failing batch is
attempted.  Returns the attempted batches and whether the command finished
normally. -/
def runGroups (rebuildOk : List String → Bool) (releaseOk : List FixIssue → Bool)
    (batchSize : Nat) : List (String × List FixIssue) → List BatchEntry × Bool
  | [] => ([], true)
  | (t, typeIssues) :: rest =>
    if t = "needs_rebuild" then
      let names := typeIssues.map (fun i => i.package_name)
      let ran := runTypeBatches (batchPasses rebuildOk releaseOk)
        ((chunks batchSize names).map .rebuild)
      if ran.2 then
        let tail := runGroups rebuildOk releaseOk batchSize rest
        (ran.1 ++ tail.1, tail.2)
      else (ran.1, false)
    else if t = "needs_release" then
      let ran := runTypeBatches (batchPasses rebuildOk releaseOk)
        ((chunks batchSize typeIssues).map .release)
      if ran.2 then
        let tail := runGroups rebuildOk releaseOk batchSize rest
        (ran.1 ++ tail.1, tail.2)
      else (ran.1, false)
    else runGroups rebuildOk releaseOk batchSize rest

/-- The remediation run of `fix_issues` over a report's `issues` list:
group by type, then process each group's batches sequentially.  The first
component lists every batch actually attempted; the second is `true` iff
the command finished without a batch failure. -/
def fix_issues_run (rebuildOk : List String → Bool) (releaseOk : List FixIssue → Bool)
    (batchSize : Nat) (issues : List FixIssue) : List BatchEntry × Bool :=
  runGroups rebuildOk releaseOk batchSize (groupByType issues)

/-- The full batch schedule the report describes: every batch of every
`needs_rebuild`/`needs_release` group, in group order. -/
def fullBatches (batchSize : Nat) (issues : List FixIssue) : List BatchEntry :=
  (groupByType issues).flatMap fun g =>
    if g.1 = "needs_rebuild" then
      (chunks batchSize (g.2.map (fun i => i.package_name))).map .rebuild
    else if g.1 = "needs_release" then
      (chunks batchSize g.2).map .release
    else []

/-- Reference behaviour the coordinator is compared against: attempt the
scheduled batches in order and stop at the first failure. -/
def flatRun (passes : BatchEntry → Bool) : List BatchEntry → List BatchEntry × Bool
  | [] => ([], true)
  | b :: rest =>
    if passes b then
      let tail := flatRun passes rest
      (b :: tail.1, tail.2)
    else ([b], false)

end FixIssues

/-! ## Helper lemmas about the string order and sorting -/

theorem charToNat_inj {a b : Char} (h : a.toNat = b.toNat) : a = b :=
  Char.eq_of_val_eq (UInt32.ext h)

theorem strLt_irrefl (cs : List Char) : strLtChars cs cs = false := by
  induction cs with
  | nil => rfl
  | cons a as ih => simp [strLtChars, ih]

theorem strLt_trans (as : List Char) :
    ∀ bs cs, strLtChars as bs = true → strLtChars bs cs = true → strLtChars as cs = true := by
  induction as with
  | nil =>
    intro bs cs h1 h2
    cases bs with
    | nil => simp [strLtChars] at h1
    | cons b bs' =>
      cases cs with
      | nil => simp [strLtChars] at h2
      | cons c cs' => simp [strLtChars]
  | cons a as' ih =>
    intro bs cs h1 h2
    cases bs with
    | nil => simp [strLtChars] at h1
    | cons b bs' =>
      cases cs with
      | nil => simp [strLtChars] at h2
      | cons c cs' =>
        simp only [strLtChars] at h1 h2 ⊢
        split at h1
        · rename_i hab
          split at h2
          · rename_i hbc
            rw [if_pos (Nat.lt_trans hab hbc)]
          · split at h2
            · rename_i hbc hbe
              rw [if_pos (by omega)]
            · exact absurd h2 (by simp)
        · split at h1
          · rename_i hab habe
            split at h2
            · rename_i hbc
              rw [if_pos (by omega)]
            · split at h2
              · rename_i hbc hbce
                rw [if_neg (by omega), if_pos (by omega)]
                exact ih bs' cs' h1 h2
              · exact absurd h2 (by simp)
          · exact absurd h1 (by simp)

theorem strLt_conn (as : List Char) :
    ∀ bs, strLtChars as bs = false → strLtChars bs as = false → as = bs := by
  induction as with
  | nil =>
    intro bs h1 _
    cases bs with
    | nil => rfl
    | cons b bs' => simp [strLtChars] at h1
  | cons a as' ih =>
    intro bs h1 h2
    cases bs with
    | nil => simp [strLtChars] at h2
    | cons b bs' =>
      simp only [strLtChars] at h1 h2
      split at h1
      · exact absurd h1 (by simp)
      · split at h1
        · rename_i hab habe
          rw [if_neg (by omega), if_pos (by omega)] at h2
          rw [charToNat_inj habe, ih bs' h1 h2]
        · rename_i hab habe
          rw [if_pos (by omega)] at h2
          exact absurd h2 (by simp)

theorem pyLe_refl (a : String) : pyLeRel a a := by
  simp [pyLeRel, pyLe, strLt_irrefl]

theorem pyLe_total (a b : String) : pyLeRel a b ∨ pyLeRel b a := by
  by_cases h : strLtChars b.data a.data = true
  · right
    simp only [pyLeRel, pyLe, Bool.not_eq_true']
    cases h2 : strLtChars a.data b.data with
    | false => rfl
    | true => exact absurd (strLt_trans _ _ _ h2 h) (by simp [strLt_irrefl])
  · left
    simp only [pyLeRel, pyLe, Bool.not_eq_true']
    exact Bool.not_eq_true _ ▸ h

theorem pyLe_trans (a b c : String) (h1 : pyLeRel a b) (h2 : pyLeRel b c) : pyLeRel a c := by
  simp only [pyLeRel, pyLe, Bool.not_eq_true'] at h1 h2 ⊢
  cases hca : strLtChars c.data a.data with
  | false => rfl
  | true =>
    exfalso
    cases hab : strLtChars a.data b.data with
    | true =>
      have := strLt_trans _ _ _ hca hab
      rw [this] at h2
      cases h2
    | false =>
      have hba : b.data = a.data := strLt_conn _ _ h1 hab
      rw [hba] at h2
      rw [h2] at hca
      cases hca

theorem getLastD_mem {α : Type} (l : List α) (d : α) (h : l ≠ []) : l.getLastD d ∈ l := by
  induction l generalizing d with
  | nil => exact absurd rfl h
  | cons a l' ih =>
    cases l' with
    | nil => simp [List.getLastD]
    | cons b l'' =>
      rw [List.getLastD_cons]
      exact List.mem_cons_of_mem a (ih b (by simp))

theorem sorted_last_ge (l : List String) (hs : List.Sorted pyLeRel l) :
    ∀ d x, x ∈ l → pyLeRel x (l.getLastD d) := by
  induction l with
  | nil => intro d x hx; cases hx
  | cons a l' ih =>
    intro d x hx
    rw [List.sorted_cons] at hs
    cases l' with
    | nil =>
      simp at hx
      simp [hx, List.getLastD, pyLe_refl]
    | cons b l'' =>
      rw [List.getLastD_cons]
      rcases List.mem_cons.mp hx with hxa | hxl
      · rw [hxa]
        exact hs.1 _ (getLastD_mem (b :: l'') a (by simp))
      · exact ih hs.2 a x hxl

theorem countP_add_filterNot {α : Type} (p : α → Bool) (l : List α) :
    l.countP p + (l.filter (fun a => !p a)).length = l.length := by
  induction l with
  | nil => simp
  | cons a l' ih =>
    rw [List.countP_cons, List.filter_cons]
    cases hp : p a <;> simp [hp] <;> omega

theorem find_snapshot_ne_empty {out s : String}
    (h : FindIssues.find_snapshot_for_commit_id out = some s) : s ≠ "" := by
  unfold FindIssues.find_snapshot_for_commit_id at h
  simp only [] at h
  split at h
  · cases h
  · rename_i hne
    intro hs
    rw [Option.some.injEq] at h
    exact hne (h ▸ hs)

theorem collectResults_error (classify : String → Except String FindIssues.IssueRecord) :
    ∀ (pkgs : List String) (p e : String), p ∈ pkgs → classify p = .error e →
      ∃ e2, FindIssues.collectResults classify pkgs = .error e2 := by
  intro pkgs
  induction pkgs with
  | nil => intro p e hp _; cases hp
  | cons q rest ih =>
    intro p e hp he
    rcases List.mem_cons.mp hp with hq | hrest
    · rw [hq] at he
      exact ⟨e, by simp [FindIssues.collectResults, he]⟩
    · cases hcq : classify q with
      | error e3 => exact ⟨e3, by simp [FindIssues.collectResults, hcq]⟩
      | ok r =>
        obtain ⟨e2, h2⟩ := ih p e hrest he
        exact ⟨e2, by simp [FindIssues.collectResults, hcq, h2]⟩

theorem dropWhile_of_all_false {α : Type} (p : α → Bool) (l : List α)
    (h : ∀ x ∈ l, p x = false) : l.dropWhile p = l := by
  cases l with
  | nil => rfl
  | cons a as => simp [List.dropWhile, h a (by simp)]

theorem pyStrip_of_no_space (cs : List Char) (h : ∀ c ∈ cs, pyIsSpace c = false) :
    pyStrip cs = cs := by
  rw [pyStrip, dropWhile_of_all_false _ _ h,
    dropWhile_of_all_false _ _ (fun c hc => h c (List.mem_reverse.mp hc)),
    List.reverse_reverse]

theorem dropTrailing_of_no_backslash (cs : List Char)
    (h : ∀ c ∈ cs, (c = '\\') = False) :
    FindIssues.dropTrailingBackslashes cs = cs := by
  rw [FindIssues.dropTrailingBackslashes,
    dropWhile_of_all_false _ _ (fun c hc => by
      simpa using h c (List.mem_reverse.mp hc)),
    List.reverse_reverse]

theorem lineVersion_chars {pat : List Char} {lines : List (List Char)} {ver : List Char}
    (h : lines.findSome? (FindIssues.lineVersion pat) = some ver) :
    ver ≠ [] ∧ ∀ c ∈ ver, FindIssues.verChar c = true := by
  obtain ⟨l, _, hlv⟩ := List.exists_of_findSome?_eq_some h
  rw [FindIssues.lineVersion] at hlv
  rcases hcc : FindIssues.ciConsume (pat ++ ['=', '=']) l with _ | rest
  · rw [hcc] at hlv; cases hlv
  · rw [hcc] at hlv
    simp only [] at hlv
    split at hlv
    · cases hlv
    · rename_i hne
      rw [Option.some.injEq] at hlv
      constructor
      · intro h0
        rw [← hlv] at h0
        simp [h0] at hne
      · intro c hc
        rw [← hlv] at hc
        exact List.mem_takeWhile_imp hc

theorem ciConsume_append_left (l : List Char) :
    ∀ m s, FindIssues.ciConsume (l ++ m) (l ++ s) = FindIssues.ciConsume m s := by
  induction l with
  | nil => intro m s; rfl
  | cons a l' ih =>
    intro m s
    rw [List.cons_append, List.cons_append, FindIssues.ciConsume, if_pos rfl]
    exact ih m s

theorem toLower_eq_eq_char {c : Char} (h : c.toLower = '=') : c = '=' := by
  unfold Char.toLower at h
  simp only [] at h
  by_cases hr : c.toNat ≥ 65 ∧ c.toNat ≤ 90
  · exfalso
    rw [if_pos hr] at h
    have h2 := congrArg Char.toNat h
    have hv : (c.toNat + 32).isValidChar := Or.inl (by omega)
    simp only [Char.toNat, UInt32.toNat] at hv hr
    simp only [Char.ofNat, Char.toNat, UInt32.toNat, dif_pos hv,
      dif_pos (by decide : Nat.isValidChar 61), Char.ofNatAux] at h2
    simp at h2
    omega
  · rwa [if_neg hr] at h

theorem scanChecks_foldl (runs : List FixIssues.CheckRun) :
    ∀ a b : Bool,
      runs.foldl
        (fun acc c =>
          if FixIssues.checkPending c then (false, acc.2)
          else if FixIssues.checkBad c then (acc.1, false) else acc) (a, b) =
      (a && runs.all (fun c => !FixIssues.checkPending c),
       b && runs.all (fun c => FixIssues.checkPending c || !FixIssues.checkBad c)) := by
  induction runs with
  | nil => intro a b; simp
  | cons c cs ih =>
    intro a b
    rw [List.foldl_cons, List.all_cons, List.all_cons]
    cases hp : FixIssues.checkPending c with
    | true => simp [hp, ih]
    | false =>
      cases hb : FixIssues.checkBad c with
      | true => simp [hp, hb, ih]
      | false => simp [hp, hb, ih]

theorem scanChecks_eq (runs : List FixIssues.CheckRun) :
    FixIssues.scanChecks runs =
      (runs.all (fun c => !FixIssues.checkPending c),
       runs.all (fun c => FixIssues.checkPending c || !FixIssues.checkBad c)) := by
  rw [FixIssues.scanChecks, scanChecks_foldl]
  simp

theorem appearPolls_const_empty :
    ∀ fuel i, FixIssues.appearPolls (fun _ => []) i fuel = none := by
  intro fuel
  induction fuel with
  | zero => intro i; rfl
  | succ n ih =>
    intro i
    rw [FixIssues.appearPolls]
    simp [ih]

theorem appearPolls_const_found (runs : List FixIssues.CheckRun) (hne : runs ≠ [])
    (i fuel : Nat) : FixIssues.appearPolls (fun _ => runs) i (fuel + 1) = some i := by
  rw [FixIssues.appearPolls]
  simp [hne]

theorem completePolls_const_done (runs : List FixIssues.CheckRun) (hne : runs ≠ [])
    (hc : (FixIssues.scanChecks runs).1 = true) (i fuel : Nat) :
    FixIssues.completePolls (fun _ => runs) i (fuel + 1) =
      some (FixIssues.scanChecks runs).2 := by
  rw [FixIssues.completePolls]
  simp [hne, hc]

theorem completePolls_const_pending (runs : List FixIssues.CheckRun)
    (hc : (FixIssues.scanChecks runs).1 = false) :
    ∀ fuel i, FixIssues.completePolls (fun _ => runs) i fuel = none := by
  intro fuel
  induction fuel with
  | zero => intro i; rfl
  | succ n ih =>
    intro i
    rw [FixIssues.completePolls]
    by_cases hE : runs.isEmpty
    · simp [hE, ih]
    · simp [hE, hc, ih]

theorem all_or_not_bad_of_all_not_pending (runs : List FixIssues.CheckRun)
    (h : runs.all (fun c => !FixIssues.checkPending c) = true) :
    runs.all (fun c => FixIssues.checkPending c || !FixIssues.checkBad c) =
      runs.all (fun c => !FixIssues.checkBad c) := by
  induction runs with
  | nil => rfl
  | cons c cs ih =>
    rw [List.all_cons] at h ⊢
    rw [List.all_cons]
    rw [Bool.and_eq_true] at h
    have hp : FixIssues.checkPending c = false := by
      simpa using h.1
    rw [hp, ih h.2]
    simp

theorem releaseCreationPhase_append_fail
    (snap : String → String → Except String String)
    (create : String → Except String String) (bad : FixIssues.ReleaseIssue)
    (rest : List FixIssues.ReleaseIssue) (e : String)
    (hbad : snap bad.package_name bad.built_commit_id = .error e) :
    ∀ pre : List FixIssues.ReleaseIssue,
      (∀ i ∈ pre, ∃ s r, snap i.package_name i.built_commit_id = .ok s ∧ create s = .ok r) →
      (FixIssues.releaseCreationPhase snap create (pre ++ bad :: rest)).2 = some e ∧
      (FixIssues.releaseCreationPhase snap create (pre ++ bad :: rest)).1.map
          (fun t => t.1) =
        pre.map (fun i => i.package_name) := by
  intro pre
  induction pre with
  | nil =>
    intro _
    rw [List.nil_append]
    simp [FixIssues.releaseCreationPhase, hbad]
  | cons i pre' ih =>
    intro hpre
    obtain ⟨s, r, hs, hr⟩ := hpre i (List.mem_cons_self i pre')
    have htail := ih (fun j hj => hpre j (List.mem_cons_of_mem i hj))
    rw [List.cons_append]
    constructor
    · simp only [FixIssues.releaseCreationPhase, hs, hr]
      exact htail.1
    · simp only [FixIssues.releaseCreationPhase, hs, hr, List.map_cons]
      rw [htail.2]

theorem runTypeBatches_eq_flatRun (p : FixIssues.BatchEntry → Bool) :
    ∀ l, FixIssues.runTypeBatches p l = FixIssues.flatRun p l := by
  intro l
  induction l with
  | nil => rfl
  | cons b rest ih =>
    rw [FixIssues.runTypeBatches, FixIssues.flatRun]
    cases hp : p b <;> simp [hp, ih]

theorem flatRun_append (p : FixIssues.BatchEntry → Bool) (l1 l2 : List FixIssues.BatchEntry) :
    FixIssues.flatRun p (l1 ++ l2) =
      if (FixIssues.flatRun p l1).2
      then ((FixIssues.flatRun p l1).1 ++ (FixIssues.flatRun p l2).1,
            (FixIssues.flatRun p l2).2)
      else FixIssues.flatRun p l1 := by
  induction l1 with
  | nil => simp [FixIssues.flatRun]
  | cons b rest ih =>
    cases hp : p b with
    | true =>
      rw [List.cons_append, FixIssues.flatRun, if_pos hp, ih, FixIssues.flatRun, if_pos hp]
      cases h2 : (FixIssues.flatRun p rest).2 <;> simp [h2]
    | false =>
      rw [List.cons_append, FixIssues.flatRun, if_neg (by simp [hp]),
        FixIssues.flatRun, if_neg (by simp [hp])]
      simp [FixIssues.flatRun, hp]

theorem flatRun_snd (p : FixIssues.BatchEntry → Bool) :
    ∀ l, (FixIssues.flatRun p l).2 = l.all p := by
  intro l
  induction l with
  | nil => rfl
  | cons b rest ih =>
    rw [FixIssues.flatRun, List.all_cons]
    cases hp : p b <;> simp [hp, ih]

/-! ## Claims -/

/-- C1: `analyze_package` follows the decision table in order: equal
versions (both `None` counting as equal) yield `no_issue` with action
`none`; otherwise a built/head commit mismatch yields `needs_rebuild` with
action `rebuild`, regardless of whether a snapshot exists for the commit;
otherwise a found snapshot yields `needs_release` with action `release`
and a description citing the snapshot name, and an absent snapshot yields
`unknown` with action `investigate`. -/
theorem analyze_package_decision_table
    (pkg : String) (gv iv bc cc : Option String) (stdout : String) :
    (gv = iv →
      (FindIssues.analyze_package pkg gv iv bc cc
        (FindIssues.find_snapshot_for_commit_id stdout)).issue_type = "no_issue" ∧
      (FindIssues.analyze_package pkg gv iv bc cc
        (FindIssues.find_snapshot_for_commit_id stdout)).action_needed = "none") ∧
    (gv ≠ iv → bc ≠ cc →
      (FindIssues.analyze_package pkg gv iv bc cc
        (FindIssues.find_snapshot_for_commit_id stdout)).issue_type = "needs_rebuild" ∧
      (FindIssues.analyze_package pkg gv iv bc cc
        (FindIssues.find_snapshot_for_commit_id stdout)).action_needed = "rebuild") ∧
    (gv ≠ iv → bc = cc → ∀ s, FindIssues.find_snapshot_for_commit_id stdout = some s →
      (FindIssues.analyze_package pkg gv iv bc cc
        (FindIssues.find_snapshot_for_commit_id stdout)).issue_type = "needs_release" ∧
      (FindIssues.analyze_package pkg gv iv bc cc
        (FindIssues.find_snapshot_for_commit_id stdout)).action_needed = "release" ∧
      (FindIssues.analyze_package pkg gv iv bc cc
        (FindIssues.find_snapshot_for_commit_id stdout)).issue_description =
        "Build exists but not released. Snapshot: " ++ s) ∧
    (gv ≠ iv → bc = cc → FindIssues.find_snapshot_for_commit_id stdout = none →
      (FindIssues.analyze_package pkg gv iv bc cc
        (FindIssues.find_snapshot_for_commit_id stdout)).issue_type = "unknown" ∧
      (FindIssues.analyze_package pkg gv iv bc cc
        (FindIssues.find_snapshot_for_commit_id stdout)).action_needed = "investigate") := by
  refine ⟨?_, ?_, ?_, ?_⟩
  · intro h
    simp [FindIssues.analyze_package, h]
  · intro h1 h2
    simp [FindIssues.analyze_package, h1, h2]
  · intro h1 h2 s hs
    have hne : s ≠ "" := find_snapshot_ne_empty hs
    simp [FindIssues.analyze_package, h1, h2, hs, FindIssues.optTruthy, hne,
      FindIssues.pyShowOpt]
  · intro h1 h2 hs
    simp [FindIssues.analyze_package, h1, h2, hs, FindIssues.optTruthy]

/-- C1 witness: the decision table instantiated on a concrete package whose
versions differ, whose commits agree, and whose snapshot lookup returned
`snap1`. -/
theorem analyze_package_decision_table_witness :
    (FindIssues.analyze_package "p" (some "1.2.4") (some "1.2.3") (some "a") (some "a")
      (FindIssues.find_snapshot_for_commit_id " snap1 \n")).issue_type = "needs_release" ∧
    (FindIssues.analyze_package "p" (some "1.2.4") (some "1.2.3") (some "a") (some "a")
      (FindIssues.find_snapshot_for_commit_id " snap1 \n")).action_needed = "release" ∧
    (FindIssues.analyze_package "p" (some "1.2.4") (some "1.2.3") (some "a") (some "a")
      (FindIssues.find_snapshot_for_commit_id " snap1 \n")).issue_description =
      "Build exists but not released. Snapshot: " ++ "snap1" :=
  (analyze_package_decision_table "p" (some "1.2.4") (some "1.2.3") (some "a") (some "a")
    " snap1 \n").2.2.1 (by decide) rfl "snap1" (by decide)

/-- C10: the claim says `lastBuiltCommit` and `headCommit` return `None`
when the underlying query fails and do not raise; the code passes
`check=True` to `subprocess.run` with no exception handler, so a failing
query raises `CalledProcessError` instead (the repo's own tests
`test_latest_built_commit_id_subprocess_error` and
`test_latest_commit_id_subprocess_error` assert the `None` behaviour the
claim describes).  Only the absent-status-field half of the claim holds. -/
theorem latest_ids_raise_on_query_failure :
    FindIssues.latest_built_commit_id (.error "CalledProcessError") =
      .error "CalledProcessError" ∧
    FindIssues.latest_commit_id (.error "CalledProcessError") =
      .error "CalledProcessError" ∧
    (∀ d : FindIssues.ComponentYaml, d.status = none →
      FindIssues.latest_built_commit_id (.ok d) = .ok none) ∧
    (∀ c : Option String, FindIssues.latest_built_commit_id (.ok ⟨some c⟩) = .ok c) := by
  refine ⟨rfl, rfl, ?_, fun c => rfl⟩
  intro d hd
  simp [FindIssues.latest_built_commit_id, hd]

/-- C10 witness: the absent-status case evaluated on a concrete document. -/
theorem latest_ids_raise_on_query_failure_witness :
    FindIssues.latest_built_commit_id (.ok ⟨none⟩) = .ok none :=
  latest_ids_raise_on_query_failure.2.2.1 ⟨none⟩ rfl

/-- C5 counterexample: with three packages of which exactly the middle one's
classification raises, the scan does not produce a report covering the
other two — the exception propagates out of the collection loop and the
whole scan evaluates to that error. -/
theorem find_issues_scan_aborts_counterexample :
    (fun p => if p = "b" then (Except.error "boom" : Except String FindIssues.IssueRecord)
      else .ok (FindIssues.analyze_package p (some "1") (some "1") none none none)) "a"
      = .ok (FindIssues.analyze_package "a" (some "1") (some "1") none none none) ∧
    (fun p => if p = "b" then (Except.error "boom" : Except String FindIssues.IssueRecord)
      else .ok (FindIssues.analyze_package p (some "1") (some "1") none none none)) "b"
      = .error "boom" ∧
    FindIssues.find_issues_scan
      (fun p => if p = "b" then (Except.error "boom" : Except String FindIssues.IssueRecord)
        else .ok (FindIssues.analyze_package p (some "1") (some "1") none none none))
      ["a", "b", "c"] = .error "boom" := by
  exact ⟨rfl, rfl, rfl⟩

/-- C5 (amended): a classification failure for any package aborts the whole
scan — `future.result()` is called without an exception handler, so the
error propagates out of `find_issues` and no report is produced. -/
theorem find_issues_scan_propagates_failure
    (classify : String → Except String FindIssues.IssueRecord) (pkgs : List String)
    (p e : String) (hp : p ∈ pkgs) (he : classify p = .error e) :
    ∃ e2, FindIssues.find_issues_scan classify pkgs = .error e2 := by
  obtain ⟨e2, h2⟩ := collectResults_error classify pkgs p e hp he
  exact ⟨e2, by simp [FindIssues.find_issues_scan, h2]⟩

/-- C9: after `mark_package_for_rebuild`, the written file consists of
exactly the prior non-marker lines, unchanged and in order, followed by a
single marker line (a line starting with `# Add comment to force rebuild`)
carrying the new timestamp in last position. -/
theorem mark_package_for_rebuild_frame (ts content : String) :
    FixIssues.mark_package_for_rebuild ts content =
      String.mk (joinNL (FixIssues.markRebuildLines ts (splitlinesNL content.data)) ++ ['\n']) ∧
    (FixIssues.markRebuildLines ts (splitlinesNL content.data)).filter
        (fun l => FixIssues.rebuildMarker.isPrefixOf l) = [FixIssues.markerLine ts] ∧
    (FixIssues.markRebuildLines ts (splitlinesNL content.data)).getLastD [] =
      FixIssues.markerLine ts ∧
    (FixIssues.markRebuildLines ts (splitlinesNL content.data)).filter
        (fun l => !(FixIssues.rebuildMarker.isPrefixOf l)) =
      (splitlinesNL content.data).filter
        (fun l => !(FixIssues.rebuildMarker.isPrefixOf l)) := by
  have hmarker : FixIssues.rebuildMarker.isPrefixOf (FixIssues.markerLine ts) = true :=
    List.isPrefixOf_iff_prefix.mpr (List.prefix_append _ _)
  refine ⟨rfl, ?_, ?_, ?_⟩
  · rw [FixIssues.markRebuildLines, List.filter_append, List.filter_filter]
    simp [hmarker]
  · exact List.getLastD_concat _ _ _
  · rw [FixIssues.markRebuildLines, List.filter_append, List.filter_filter]
    simp [hmarker]

/-- C8: `package_version` returns `None` when the manifest is absent or no
line matches; a returned version comes from a line starting with the
package name followed by `==` and contains no whitespace and no backslash
(so the trailing continuation backslash and surrounding whitespace are
gone); a line where the name is followed by any character other than `=`
(e.g. a longer package name) never matches; and the spec's concrete
examples behave as stated, including the case-insensitive name match. -/
theorem package_version_spec :
    (∀ pkg, FindIssues.package_version pkg none = none) ∧
    (∀ pkg content, (∀ l ∈ splitNL content.data, FindIssues.lineVersion pkg.data l = none) →
      FindIssues.package_version pkg (some content) = none) ∧
    (∀ pkg content v, FindIssues.package_version pkg (some content) = some v →
      v ≠ "" ∧ ∀ c ∈ v.data, FindIssues.verChar c = true) ∧
    (∀ (pkg : String) (rest : List Char) (c : Char), c ≠ '=' →
      FindIssues.lineVersion pkg.data (pkg.data ++ c :: rest) = none) ∧
    FindIssues.package_version "test-package"
      (some "test-package==1.2.3 \\\nother-package==4.5.6\n") = some "1.2.3" ∧
    FindIssues.package_version "test-package" (some "Test-Package==1.2.3") = some "1.2.3" ∧
    FindIssues.package_version "pkg" (some "pkg-extra==1.0\nmypkg==2.0") = none := by
  refine ⟨fun pkg => rfl, ?_, ?_, ?_, by decide, by decide, by decide⟩
  · intro pkg content h
    rw [FindIssues.package_version]
    rw [List.findSome?_eq_none_iff.mpr h]
  · intro pkg content v hv
    rw [FindIssues.package_version] at hv
    rcases hfind : (splitNL content.data).findSome? (FindIssues.lineVersion pkg.data) with
      _ | ver
    · rw [hfind] at hv; cases hv
    · rw [hfind, Option.some.injEq] at hv
      obtain ⟨hne, hall⟩ := lineVersion_chars hfind
      have hstrip1 : pyStrip ver = ver :=
        pyStrip_of_no_space ver (fun c hc => by
          have := hall c hc
          rw [FindIssues.verChar, Bool.not_eq_true', Bool.or_eq_false_iff] at this
          exact this.2)
      have hdrop : FindIssues.dropTrailingBackslashes ver = ver :=
        dropTrailing_of_no_backslash ver (fun c hc => by
          have := hall c hc
          rw [FindIssues.verChar, Bool.not_eq_true', Bool.or_eq_false_iff] at this
          simpa using this.1)
      rw [hstrip1, hdrop, hstrip1] at hv
      constructor
      · intro hv0
        rw [← hv] at hv0
        have : ver = [] := congrArg String.data hv0
        exact hne this
      · intro c hc
        rw [← hv] at hc
        exact hall c hc
  · intro pkg rest c hc
    rw [FindIssues.lineVersion, ciConsume_append_left]
    have : FindIssues.ciConsume ['=', '='] (c :: rest) = none := by
      rw [FindIssues.ciConsume]
      rw [if_neg ?_]
      intro h
      exact hc (toLower_eq_eq_char (h.symm))
    rw [this]

/-- C8 witness: the substring-safety part applied to a concrete longer
package name. -/
theorem package_version_spec_witness :
    FindIssues.lineVersion "pkg".data ("pkg".data ++ '-' :: "extra==1.0".data) = none :=
  package_version_spec.2.2.2.1 "pkg" "extra==1.0".data '-' (by decide)

/-- C2 counterexample: a commit with a single check that completed with
conclusion `neutral` — neither `success` nor `failure`/`cancelled`.
`wait_for_commit_checks` returns `True` although not every check's
conclusion is `success`, refuting the claimed equivalence as stated. -/
theorem wait_for_commit_checks_counterexample :
    FixIssues.wait_for_commit_checks
      (fun _ => [⟨"c", "completed", "neutral"⟩]) 10 1 = some true ∧
    ([(⟨"c", "completed", "neutral"⟩ : FixIssues.CheckRun)].all
      (fun c => c.conclusion = "success")) = false := by decide

/-- C2 (amended): over a stable trace of poll responses,
`wait_for_commit_checks` returns `True` iff at least one check run appears
within the appearance timeout and no check's conclusion is `failure` or
`cancelled` once all checks have completed (a completed check with any
other conclusion, e.g. `neutral`, does not fail the batch); zero checks
appearing within the timeout yields `False`; and while any check is still
`queued`/`in_progress` the function keeps polling and does not return. -/
theorem wait_for_commit_checks_spec :
    (∀ af cf, FixIssues.wait_for_commit_checks (fun _ => []) af cf = some false) ∧
    (∀ (runs : List FixIssues.CheckRun) af cf, 0 < af → 0 < cf → runs ≠ [] →
      runs.all (fun c => !FixIssues.checkPending c) = true →
      FixIssues.wait_for_commit_checks (fun _ => runs) af cf =
        some (runs.all (fun c => !FixIssues.checkBad c))) ∧
    (∀ (runs : List FixIssues.CheckRun) af cf, 0 < af → runs ≠ [] →
      runs.any FixIssues.checkPending = true →
      FixIssues.wait_for_commit_checks (fun _ => runs) af cf = none) := by
  refine ⟨?_, ?_, ?_⟩
  · intro af cf
    rw [FixIssues.wait_for_commit_checks, appearPolls_const_empty]
  · intro runs af cf haf hcf hne hall
    obtain ⟨af', rfl⟩ := Nat.exists_eq_succ_of_ne_zero (Nat.pos_iff_ne_zero.mp haf)
    obtain ⟨cf', rfl⟩ := Nat.exists_eq_succ_of_ne_zero (Nat.pos_iff_ne_zero.mp hcf)
    rw [FixIssues.wait_for_commit_checks, appearPolls_const_found runs hne]
    show FixIssues.completePolls (fun _ => runs) (0 + 1) (cf' + 1) = _
    rw [completePolls_const_done runs hne (by rw [scanChecks_eq]; simpa using hall)]
    rw [scanChecks_eq]
    rw [all_or_not_bad_of_all_not_pending runs hall]
  · intro runs af cf haf hne hany
    obtain ⟨af', rfl⟩ := Nat.exists_eq_succ_of_ne_zero (Nat.pos_iff_ne_zero.mp haf)
    rw [FixIssues.wait_for_commit_checks, appearPolls_const_found runs hne]
    show FixIssues.completePolls (fun _ => runs) (0 + 1) cf = none
    apply completePolls_const_pending
    rw [scanChecks_eq]
    obtain ⟨c, hc, hcp⟩ := List.any_eq_true.mp hany
    simp only []
    rw [List.all_eq_false]
    exact ⟨c, hc, by simp [hcp]⟩

/-- C2 witness: the amended characterisation applied to a stable trace with
one completed, failed check: the batch result is `False`. -/
theorem wait_for_commit_checks_spec_witness :
    FixIssues.wait_for_commit_checks
      (fun _ => [⟨"c", "completed", "failure"⟩]) 10 5 =
      some ([(⟨"c", "completed", "failure"⟩ : FixIssues.CheckRun)].all
        (fun c => !FixIssues.checkBad c)) :=
  wait_for_commit_checks_spec.2.1 [⟨"c", "completed", "failure"⟩] 10 5
    (by decide) (by decide) (by decide) (by decide)

/-- C3 counterexample: a two-member release batch whose second member's
snapshot resolution fails.  The batch aborts, but the loop interleaves
resolution and release creation, so a release for the first member has
already been created — the external release state is not unchanged,
refuting "no releases are created for that batch". -/
theorem process_batch_release_counterexample :
    (fun p (_ : String) => if p = "p1" then (Except.ok "snap1" : Except String String)
      else .error "no snapshot") "p2" "c2" = .error "no snapshot" ∧
    FixIssues.process_batch_release
      (fun p _ => if p = "p1" then (Except.ok "snap1" : Except String String)
        else .error "no snapshot")
      (fun s => .ok ("rel-" ++ s)) (fun _ => true)
      [⟨"p1", "c1"⟩, ⟨"p2", "c2"⟩]
      = ([("p1", "rel-snap1", "snap1")], .raised "no snapshot") := by decide

/-- C3 (amended): when snapshot resolution fails for a member of a release
batch, the batch aborts at that member — the exception propagates and the
wait phase never runs — but releases have already been created for exactly
the members preceding the first failing one (none only when the first
member fails). -/
theorem process_batch_release_aborts_at_failure
    (snap : String → String → Except String String)
    (create : String → Except String String) (waitRel : String → Bool)
    (pre : List FixIssues.ReleaseIssue) (bad : FixIssues.ReleaseIssue)
    (rest : List FixIssues.ReleaseIssue) (e : String)
    (hpre : ∀ i ∈ pre, ∃ s r,
      snap i.package_name i.built_commit_id = .ok s ∧ create s = .ok r)
    (hbad : snap bad.package_name bad.built_commit_id = .error e) :
    (FixIssues.process_batch_release snap create waitRel (pre ++ bad :: rest)).1.map
        (fun t => t.1) = pre.map (fun i => i.package_name) ∧
    (FixIssues.process_batch_release snap create waitRel (pre ++ bad :: rest)).2 =
      .raised e := by
  obtain ⟨h2, h1⟩ := releaseCreationPhase_append_fail snap create bad rest e hbad pre hpre
  refine ⟨?_, ?_⟩ <;> rw [FixIssues.process_batch_release] <;> simp [h2, h1]

/-- C3 witness: the amended claim on the concrete two-member batch. -/
theorem process_batch_release_aborts_at_failure_witness :
    (FixIssues.process_batch_release
      (fun p _ => if p = "p1" then (Except.ok "snap1" : Except String String)
        else .error "no snapshot")
      (fun s => .ok ("rel-" ++ s)) (fun _ => true)
      ([⟨"p1", "c1"⟩] ++ ⟨"p2", "c2"⟩ :: [])).1.map (fun t => t.1) =
      [(⟨"p1", "c1"⟩ : FixIssues.ReleaseIssue)].map (fun i => i.package_name) ∧
    (FixIssues.process_batch_release
      (fun p _ => if p = "p1" then (Except.ok "snap1" : Except String String)
        else .error "no snapshot")
      (fun s => .ok ("rel-" ++ s)) (fun _ => true)
      ([⟨"p1", "c1"⟩] ++ ⟨"p2", "c2"⟩ :: [])).2 = .raised "no snapshot" :=
  process_batch_release_aborts_at_failure _ _ _ [⟨"p1", "c1"⟩] ⟨"p2", "c2"⟩ [] "no snapshot"
    (by
      intro i hi
      rw [List.mem_singleton] at hi
      rw [hi]
      exact ⟨"snap1", "rel-snap1", rfl, rfl⟩)
    rfl

/-- C4 counterexample: two rebuild batches and a release group; the first
rebuild batch fails, and neither the second rebuild batch nor the release
batch is attempted — the failure of one batch does prevent the subsequent
batches and remaining issue types, refuting the claim as stated. -/
theorem fix_issues_run_counterexample :
    FixIssues.fix_issues_run (fun _ => false) (fun _ => true) 1
      [⟨"p1", "needs_rebuild", "c1"⟩, ⟨"p2", "needs_rebuild", "c2"⟩,
       ⟨"p3", "needs_release", "c3"⟩]
      = ([FixIssues.BatchEntry.rebuild ["p1"]], false) ∧
    FixIssues.BatchEntry.rebuild ["p2"] ∉
      (FixIssues.fix_issues_run (fun _ => false) (fun _ => true) 1
        [⟨"p1", "needs_rebuild", "c1"⟩, ⟨"p2", "needs_rebuild", "c2"⟩,
         ⟨"p3", "needs_release", "c3"⟩]).1 ∧
    FixIssues.fullBatches 1
      [⟨"p1", "needs_rebuild", "c1"⟩, ⟨"p2", "needs_rebuild", "c2"⟩,
       ⟨"p3", "needs_release", "c3"⟩]
      = [FixIssues.BatchEntry.rebuild ["p1"], FixIssues.BatchEntry.rebuild ["p2"],
         FixIssues.BatchEntry.release [⟨"p3", "needs_release", "c3"⟩]] := by decide

/-- C4 (amended): the coordinator attempts the scheduled batches strictly
in order and stops at the first failing batch — a failed batch aborts the
remaining batches and remaining issue types (the `typer.Exit` propagates
out of `fix_issues`); the run's success flag is `true` iff every scheduled
batch passes. -/
theorem fix_issues_run_eq_flatRun (rebuildOk : List String → Bool)
    (releaseOk : List FixIssues.FixIssue → Bool) (batchSize : Nat)
    (issues : List FixIssues.FixIssue) :
    FixIssues.fix_issues_run rebuildOk releaseOk batchSize issues =
      FixIssues.flatRun (FixIssues.batchPasses rebuildOk releaseOk)
        (FixIssues.fullBatches batchSize issues) ∧
    (FixIssues.fix_issues_run rebuildOk releaseOk batchSize issues).2 =
      (FixIssues.fullBatches batchSize issues).all
        (FixIssues.batchPasses rebuildOk releaseOk) := by
  have hmain : FixIssues.fix_issues_run rebuildOk releaseOk batchSize issues =
      FixIssues.flatRun (FixIssues.batchPasses rebuildOk releaseOk)
        (FixIssues.fullBatches batchSize issues) := by
    rw [FixIssues.fix_issues_run, FixIssues.fullBatches]
    induction FixIssues.groupByType issues with
    | nil => rfl
    | cons g gs ih =>
      obtain ⟨t, typeIssues⟩ := g
      by_cases ht1 : t = "needs_rebuild"
      · subst ht1
        rw [FixIssues.runGroups, List.flatMap_cons, flatRun_append]
        simp only [runTypeBatches_eq_flatRun, ih, if_pos rfl]
        cases h2 : (FixIssues.flatRun (FixIssues.batchPasses rebuildOk releaseOk)
          ((FixIssues.chunks batchSize
            (typeIssues.map (fun i => i.package_name))).map
              FixIssues.BatchEntry.rebuild)).2 with
        | true => simp [h2]
        | false =>
          simp [h2]
          rw [← h2]
      · by_cases ht2 : t = "needs_release"
        · subst ht2
          rw [FixIssues.runGroups, List.flatMap_cons, flatRun_append]
          simp only [runTypeBatches_eq_flatRun, ih, if_neg ht1, if_pos rfl]
          cases h2 : (FixIssues.flatRun (FixIssues.batchPasses rebuildOk releaseOk)
            ((FixIssues.chunks batchSize typeIssues).map
              FixIssues.BatchEntry.release)).2 with
          | true => simp [ht1, h2]
          | false =>
            simp [ht1, h2]
            rw [← h2]
        · rw [FixIssues.runGroups, List.flatMap_cons, ih]
          simp [ht1, ht2]
  exact ⟨hmain, by rw [hmain, flatRun_snd]⟩

/-- C6 counterexample: a link text with an interior `.tar.gz` occurrence.
The claim's recipe (strip the `.tar.gz` suffix, take the substring after
the last hyphen) would give `b.tar.gzc`, but the code removes every
`.tar.gz` occurrence (`str.replace`) before splitting and returns `bc`. -/
theorem index_version_counterexample :
    FindIssues.specTarGzVersion "a-b.tar.gzc.tar.gz" = some "b.tar.gzc" ∧
    FindIssues.index_version 200 ["a-b.tar.gzc.tar.gz"] = some "bc" ∧
    (some "bc" : Option String) ≠ some "b.tar.gzc" := by decide

/-- C6 (amended): `index_version` maps a 404 to the sentinel `MISSING`, any
other non-200 status to `None`, and an empty link list to `None`; each
link contributes the part after the last hyphen of the link text with
every `.tar.gz` occurrence removed (links without a hyphen contribute
nothing); if no link contributes a version the result is `None`, and
otherwise it is the lexicographically greatest contributed version. -/
theorem index_version_spec :
    (∀ links, FindIssues.index_version 404 links = some "MISSING") ∧
    (∀ (code : Nat) links, code ≠ 404 → code ≠ 200 →
      FindIssues.index_version code links = none) ∧
    FindIssues.index_version 200 [] = none ∧
    (∀ links : List String, links ≠ [] →
      links.filterMap FindIssues.tarGzVersion = [] →
      FindIssues.index_version 200 links = none) ∧
    (∀ links : List String, links.filterMap FindIssues.tarGzVersion ≠ [] →
      ∃ w, FindIssues.index_version 200 links = some w ∧
        w ∈ links.filterMap FindIssues.tarGzVersion ∧
        ∀ u ∈ links.filterMap FindIssues.tarGzVersion, pyLeRel u w) := by
  haveI : IsTotal String pyLeRel := ⟨pyLe_total⟩
  haveI : IsTrans String pyLeRel := ⟨fun a b c => pyLe_trans a b c⟩
  refine ⟨fun links => rfl, ?_, rfl, ?_, ?_⟩
  · intro code links h404 h200
    rw [FindIssues.index_version, if_neg h404, if_pos h200]
  · intro links hne hfm
    rw [FindIssues.index_version]
    simp only []
    rw [if_neg (by decide), if_neg (by decide),
      if_neg (fun h => hne (List.isEmpty_iff.mp h)),
      if_pos (List.isEmpty_iff.mpr hfm)]
  · intro links hfm
    have hlinks : links ≠ [] := by
      intro h
      rw [h] at hfm
      exact hfm rfl
    have hsne : List.insertionSort pyLeRel (links.filterMap FindIssues.tarGzVersion) ≠ [] := by
      intro h
      have := (List.perm_insertionSort pyLeRel
        (links.filterMap FindIssues.tarGzVersion)).length_eq
      rw [h] at this
      exact hfm (List.length_eq_zero.mp this.symm)
    rw [FindIssues.index_version]
    simp only []
    rw [if_neg (by decide), if_neg (by decide),
      if_neg (fun h => hlinks (List.isEmpty_iff.mp h)),
      if_neg (fun h => hfm (List.isEmpty_iff.mp h))]
    refine ⟨_, rfl, ?_, ?_⟩
    · exact (List.mem_insertionSort pyLeRel).mp
        (getLastD_mem (List.insertionSort pyLeRel
          (links.filterMap FindIssues.tarGzVersion)) "" hsne)
    · intro u hu
      exact sorted_last_ge _ (List.sorted_insertionSort pyLeRel _) ""
        u ((List.mem_insertionSort pyLeRel).mpr hu)

/-- C6 witness: the amended characterisation on the spec's own two-link
example, whose greatest contributed version is `1.2.4`. -/
theorem index_version_spec_witness :
    ∃ w, FindIssues.index_version 200 ["pkg-1.2.3.tar.gz", "pkg-1.2.4.tar.gz"] = some w ∧
      w ∈ ["pkg-1.2.3.tar.gz", "pkg-1.2.4.tar.gz"].filterMap FindIssues.tarGzVersion ∧
      ∀ u ∈ ["pkg-1.2.3.tar.gz", "pkg-1.2.4.tar.gz"].filterMap FindIssues.tarGzVersion,
        pyLeRel u w :=
  index_version_spec.2.2.2.2 ["pkg-1.2.3.tar.gz", "pkg-1.2.4.tar.gz"] (by decide)

/-- C7: for every list of collected per-package records, in whatever order
the concurrent classifications completed, the report's `all_packages` is
sorted ascending by package name, `issues` is exactly the records whose
`issue_type` is not `no_issue`, and the count of `no_issue` records plus
`issues.length` equals the number of packages scanned, which is
`total_packages`. -/
theorem find_issues_report_invariants (results : List FindIssues.IssueRecord) :
    List.Sorted FindIssues.recordLe (FindIssues.aggregateReport results).all_packages ∧
    (FindIssues.aggregateReport results).issues =
      (FindIssues.aggregateReport results).all_packages.filter
        (fun r => !(r.issue_type = "no_issue")) ∧
    (FindIssues.aggregateReport results).all_packages.countP
        (fun r => r.issue_type = "no_issue") +
      (FindIssues.aggregateReport results).issues.length = results.length ∧
    (FindIssues.aggregateReport results).total_packages = results.length := by
  haveI : IsTotal FindIssues.IssueRecord FindIssues.recordLe :=
    ⟨fun a b => pyLe_total a.package_name b.package_name⟩
  haveI : IsTrans FindIssues.IssueRecord FindIssues.recordLe :=
    ⟨fun a b c h1 h2 => pyLe_trans _ _ _ h1 h2⟩
  have hlen : (List.insertionSort FindIssues.recordLe results).length = results.length :=
    (List.perm_insertionSort _ results).length_eq
  refine ⟨List.sorted_insertionSort _ _, rfl, ?_, hlen⟩
  have hcount := countP_add_filterNot
    (fun r : FindIssues.IssueRecord => r.issue_type = "no_issue")
    (List.insertionSort FindIssues.recordLe results)
  rw [hlen] at hcount
  exact hcount

/-- C5 witness: the amended claim applied to the concrete failing scan. -/
theorem find_issues_scan_propagates_failure_witness :
    ∃ e2, FindIssues.find_issues_scan
      (fun p => if p = "b" then (Except.error "boom" : Except String FindIssues.IssueRecord)
        else .ok (FindIssues.analyze_package p (some "1") (some "1") none none none))
      ["a", "b", "c"] = .error e2 :=
  find_issues_scan_propagates_failure _ ["a", "b", "c"] "b" "boom" (by decide) (by decide)

end Calunga
